import Mathlib

/-!
A shallow embedding of the deckflix "find → rank → resolve → play" core.

The relevance-ranking engine is translated from `src/deckflix/src/app.js`
(functions `preprocessSearchTerm`, `calculateRelevanceScore`,
`detectFranchiseBoost`, `getSecondaryScore`, `processSearchResults`,
`groupFranchiseResults`).  JavaScript strings are modelled as `List Char`,
JavaScript numbers as `Nat`/`ℚ`, and the stable `Array.prototype.sort`
with comparator `c` as the stable insertion sort `jsSort` with the boolean
order `le a b := c a b ≤ 0` (a stable sort for a total preorder is unique,
so any stable sort models it).

The stream resolver and playback launcher exist in this repository only as
code excerpts and prose in `src/VIDEO_PLAYBACK_FIXES_SUMMARY.md`; their
definitions below are modelled from those excerpts and the specification.
-/

namespace Deckflix

/-- Characters that JavaScript `trim` removes at either end. -/
def isJsWs (c : Char) : Bool :=
  c = ' ' || c = '\t' || c = '\n' || c = '\r'

/-- ASCII lowercasing of one character (JavaScript `toLowerCase`). -/
def jsLowerChar (c : Char) : Char :=
  if 'A' ≤ c ∧ c ≤ 'Z' then Char.ofNat (c.toNat + 32) else c

/-- JavaScript `String.prototype.toLowerCase` on an ASCII string. -/
def jsLower (s : List Char) : List Char := s.map jsLowerChar

/-- Drop trailing whitespace. -/
def trimRight (s : List Char) : List Char :=
  (s.reverse.dropWhile isJsWs).reverse

/-- JavaScript `String.prototype.trim`. -/
def trimL (s : List Char) : List Char :=
  trimRight (s.dropWhile isJsWs)

/-- JavaScript `a.startsWith(p)`: `p` is a prefix of `a`. -/
def startsWithL : List Char → List Char → Bool
  | [], _ => true
  | _ :: _, [] => false
  | p :: ps, c :: cs => p = c && startsWithL ps cs

/-- JavaScript `a.includes(n)`: `n` occurs as a contiguous substring of `a`.
(The needle comes first here: `containsSubL needle hay`.) -/
def containsSubL (needle : List Char) : List Char → Bool
  | [] => startsWithL needle []
  | c :: cs => startsWithL needle (c :: cs) || containsSubL needle cs

/-- Convenience: view a Lean string literal as the `List Char` it denotes. -/
def str (s : String) : List Char := s.toList

/-! Section: a small regular-expression engine (Brzozowski derivatives)

`detectFranchiseBoost` in `app.js` builds its patterns with
`new RegExp(...)` and tests them with `.test` (unanchored search).  The
fragment of regex syntax those patterns actually use — after JavaScript
string-escape processing of the template literals — is: literal
characters, `.`, `x*`, `x+` and a two-way alternation of literals.  The
AST below covers exactly that fragment. -/

inductive RE where
  | emp : RE
  | eps : RE
  | ch (c : Char) : RE
  | anyc : RE
  | seq (a b : RE) : RE
  | alt (a b : RE) : RE
  | star (r : RE) : RE

/-- Does the expression accept the empty string? -/
def RE.nullable : RE → Bool
  | .emp => false
  | .eps => true
  | .ch _ => false
  | .anyc => false
  | .seq a b => a.nullable && b.nullable
  | .alt a b => a.nullable || b.nullable
  | .star _ => true

/-- Brzozowski derivative with respect to one character. -/
def RE.deriv : RE → Char → RE
  | .emp, _ => .emp
  | .eps, _ => .emp
  | .ch c, a => if c = a then .eps else .emp
  | .anyc, _ => .eps
  | .seq r s, a =>
      if r.nullable then .alt (.seq (r.deriv a) s) (s.deriv a)
      else .seq (r.deriv a) s
  | .alt r s, a => .alt (r.deriv a) (s.deriv a)
  | .star r, a => .seq (r.deriv a) (.star r)

/-- Full-string match. -/
def RE.full (r : RE) (s : List Char) : Bool :=
  (s.foldl RE.deriv r).nullable

/-- Unanchored search, as JavaScript `RegExp.prototype.test`. -/
def RE.test (r : RE) (s : List Char) : Bool :=
  RE.full (.seq (.star .anyc) (.seq r (.star .anyc))) s

/-- A literal string as a regular expression. -/
def RE.lit (s : List Char) : RE :=
  s.foldr (fun c r => .seq (.ch c) r) .eps

/-- Kleene plus: `x+` as `x · x*`. -/
def RE.plus (r : RE) : RE := .seq r (.star r)

/-! Section: data model

A raw catalog item, as consumed by the ranking functions in `app.js`.
The ranking code reads `movie.name || movie.title` (modelled as the single
field `name`), `parseInt(movie.year)` (modelled as `year : Nat`, with `0`
standing for a missing or unparsable year, exactly the value
`parseInt(...) || 0` produces), `parseFloat(movie.imdb_rating)` (modelled
as `rating : ℚ`, `0` for missing) and the string `movie.content_type`. -/

structure CatalogItem where
  name : List Char
  year : Nat
  rating : ℚ
  content_type : List Char
deriving DecidableEq

/-- A scored search result: the spread `{...movie, relevanceScore,
secondaryScore, originalIndex}` built in `processSearchResults`. -/
structure SearchResult where
  item : CatalogItem
  relevanceScore : Nat
  secondaryScore : ℚ
  originalIndex : Nat
deriving DecidableEq

/-! Section: ranking engine (`app.js` lines 636–897) -/

/-- Function `preprocessSearchTerm`: lowercase and trim, strip one leading article
(`/^(the|a|an)\s+/`), then apply the fixed plural→singular table. -/
def preprocessSearchTerm (searchTerm : List Char) : List Char :=
  if searchTerm = [] then []
  else
    let processed := trimL (jsLower searchTerm)
    let processed :=
      match processed with
      | 't' :: 'h' :: 'e' :: c :: rest =>
          if isJsWs c then (c :: rest).dropWhile isJsWs
          else processed
      | 'a' :: 'n' :: c :: rest =>
          if isJsWs c then (c :: rest).dropWhile isJsWs
          else processed
      | 'a' :: c :: rest =>
          if isJsWs c then (c :: rest).dropWhile isJsWs
          else processed
      | _ => processed
    if processed = str "cars" then str "car"
    else if processed = str "movies" then str "movie"
    else if processed = str "shows" then str "show"
    else if processed = str "series" then str "series"
    else processed

/-- One pass of the scoring loop body in `calculateRelevanceScore`: the
tier a single candidate term earns against the (lowercased, trimmed)
title.  Each branch of the chain `continue`s, so per term the first
matching tier wins. -/
def tierScore (title term : List Char) : Nat :=
  if title = term then 100
  else if startsWithL term title then 90
  else if startsWithL (str "the " ++ term) title then 90
  else if startsWithL (term ++ [' ']) title then 85
  else if containsSubL ([' '] ++ term ++ [' ']) title then 80
  else if containsSubL term title then 70
  else 0

/-- The base score accumulated by the `for (const term of searchTerms)`
loop in `calculateRelevanceScore`: the running maximum of the tiers of
the original and the preprocessed search term (empty terms are dropped
by `.filter(Boolean)`). -/
def baseRelevanceScore (name searchTerm : List Char) : Nat :=
  let title := trimL (jsLower name)
  let originalSearch := trimL (jsLower searchTerm)
  let processedSearch := preprocessSearchTerm searchTerm
  let searchTerms := [originalSearch, processedSearch].filter (· ≠ [])
  searchTerms.foldl (fun s t => max s (tierScore title t)) 0

/-- The five `sequelPatterns` of `detectFranchiseBoost`.  They are built
from JavaScript template literals in which `\s` and `\d` are not valid
string escapes, so the backslashes are dropped and the compiled patterns
are literally `{term}s+d+`, `{term}s+ii+`, `{term}s*:s*`, `{term}s*-s*`
and `{term}.*s+(film|movie)`. -/
def sequelPatterns (searchLower : List Char) : List RE :=
  [ .seq (.lit searchLower) (.seq (RE.plus (.ch 's')) (RE.plus (.ch 'd'))),
    .seq (.lit searchLower) (.seq (RE.plus (.ch 's')) (.seq (.ch 'i') (RE.plus (.ch 'i')))),
    .seq (.lit searchLower) (.seq (.star (.ch 's')) (.seq (.ch ':') (.star (.ch 's')))),
    .seq (.lit searchLower) (.seq (.star (.ch 's')) (.seq (.ch '-') (.star (.ch 's')))),
    .seq (.lit searchLower)
      (.seq (.star .anyc)
        (.seq (RE.plus (.ch 's')) (.alt (.lit (str "film")) (.lit (str "movie"))))) ]

/-- Function `detectFranchiseBoost`: 15 if any sequel pattern matches the
(lowercased) title, 0 otherwise. -/
def detectFranchiseBoost (title searchTerm : List Char) : Nat :=
  let searchLower := jsLower searchTerm
  let titleLower := jsLower title
  if (sequelPatterns searchLower).any (fun p => p.test titleLower) then 15 else 0

/-- Function `calculateRelevanceScore`: base tier score plus franchise boost. -/
def calculateRelevanceScore (movie : CatalogItem) (searchTerm : List Char) : Nat :=
  let title := trimL (jsLower movie.name)
  let originalSearch := trimL (jsLower searchTerm)
  baseRelevanceScore movie.name searchTerm + detectFranchiseBoost title originalSearch

/-- Function `getSecondaryScore`: year recency (if the year parsed), rating (if
positive) and a content-type bonus.  `currentYear` stands for
`new Date().getFullYear()`. -/
def getSecondaryScore (currentYear : Nat) (movie : CatalogItem) : ℚ :=
  let yearScore : ℚ :=
    if 0 < movie.year then
      max 0 (20 - ((currentYear : ℚ) - (movie.year : ℚ)) * (1 / 2))
    else 0
  let ratingScore : ℚ := if 0 < movie.rating then movie.rating else 0
  let typeScore : ℚ :=
    if movie.content_type = str "movie" then 2
    else if movie.content_type = str "series" then 1
    else if movie.content_type = str "anime" then 1
    else 0
  yearScore + ratingScore + typeScore

/-- Stable insertion of `a` into `l`: `a` goes before the first element
`b` with `le a b`.  For a total preorder `le` this yields the unique
stable-sort result, which is the behavior ECMAScript specifies for
`Array.prototype.sort` with the comparator `c` when `le a b = (c a b ≤ 0)`. -/
def orderedInsertLe (le : α → α → Bool) (a : α) : List α → List α
  | [] => [a]
  | b :: l => if le a b then a :: b :: l else b :: orderedInsertLe le a l

/-- Stable sort by repeated insertion (the model of `Array.prototype.sort`). -/
def jsSort (le : α → α → Bool) : List α → List α
  | [] => []
  | a :: l => orderedInsertLe le a (jsSort le l)

/-- The boolean order corresponding to the three-level comparator passed
to `filteredResults.sort` (descending relevance, then descending
secondary score, then ascending original index). -/
def resultLe (a b : SearchResult) : Bool :=
  if a.relevanceScore = b.relevanceScore then
    if a.secondaryScore = b.secondaryScore then
      decide (a.originalIndex ≤ b.originalIndex)
    else decide (b.secondaryScore < a.secondaryScore)
  else decide (b.relevanceScore < a.relevanceScore)

/-- The key `parseInt(x.year) || 9999` used when re-sorting a franchise
group chronologically (unknown year sorts last). -/
def yearKey (r : SearchResult) : Nat :=
  if r.item.year = 0 then 9999 else r.item.year

/-- The boolean order of the per-group comparator `yearA - yearB`. -/
def yearLe (a b : SearchResult) : Bool :=
  decide (yearKey a ≤ yearKey b)

/-- Average relevance score of a group (`reduce(...)/length`). -/
def groupAvg (g : List SearchResult) : ℚ :=
  ((g.map fun r => (r.relevanceScore : ℚ)).sum) / (g.length : ℚ)

/-- The boolean order of the group comparator `avgScoreB - avgScoreA`
(descending average relevance). -/
def groupLe (x y : List Char × List SearchResult) : Bool :=
  decide (groupAvg y.2 ≤ groupAvg x.2)

/-- The franchise key detected for one result in `groupFranchiseResults`:
the search term itself when the title starts with it; otherwise, when the
title contains the term and splits on `:` or `-` into more than one part
whose first part contains the term, that first part trimmed. -/
def franchiseKey (searchLower : List Char) (r : SearchResult) : Option (List Char) :=
  let titleLower := jsLower r.item.name
  if startsWithL searchLower titleLower then some searchLower
  else if containsSubL searchLower titleLower then
    if titleLower.any (fun c => c = ':' || c = '-') then
      let firstPart := titleLower.takeWhile (fun c => ¬(c = ':' || c = '-'))
      if containsSubL searchLower firstPart then some (trimL firstPart)
      else none
    else none
  else none

/-- Append a member to its group in an insertion-ordered association
list, creating the group at the end if absent (JavaScript `Map`
semantics). -/
def addToGroups (gs : List (List Char × List SearchResult)) (k : List Char)
    (r : SearchResult) : List (List Char × List SearchResult) :=
  match gs with
  | [] => [(k, [r])]
  | (k', vs) :: rest =>
      if k' = k then (k', vs ++ [r]) :: rest
      else (k', vs) :: addToGroups rest k r

/-- One step of the `results.forEach` loop of `groupFranchiseResults`:
route a result into its keyed group or into the standalone list. -/
def groupStep (searchLower : List Char)
    (st : List (List Char × List SearchResult) × List SearchResult)
    (r : SearchResult) :
    List (List Char × List SearchResult) × List SearchResult :=
  match franchiseKey searchLower r with
  | some k => (addToGroups st.1 k r, st.2)
  | none => (st.1, st.2 ++ [r])

/-- The grouping fold of `groupFranchiseResults`: partition the incoming
results into keyed groups (insertion-ordered) and standalone results. -/
def buildGroups (searchLower : List Char) (results : List SearchResult) :
    List (List Char × List SearchResult) × List SearchResult :=
  results.foldl (groupStep searchLower) ([], [])

/-- Function `groupFranchiseResults`: groups (ordered by descending average
relevance, members re-sorted ascending by year) followed by the
standalone results in their incoming order. -/
def groupFranchiseResults (results : List SearchResult) (searchTerm : List Char) :
    List SearchResult :=
  let searchLower := jsLower searchTerm
  let (groups, standalone) := buildGroups searchLower results
  let sortedGroups := jsSort groupLe groups
  (sortedGroups.map fun g => jsSort yearLe g.2).flatten ++ standalone

/-- The scoring map of `processSearchResults`: each raw item paired with
its relevance score, secondary score and original position. -/
def scoreResults (currentYear : Nat) (results : List CatalogItem)
    (searchTerm : List Char) : List SearchResult :=
  results.enum.map fun p =>
    ⟨p.2, calculateRelevanceScore p.2 searchTerm, getSecondaryScore currentYear p.2, p.1⟩

/-- The `filteredResults` list of `processSearchResults`: scored results
with `relevanceScore >= 10`. -/
def filteredResults (currentYear : Nat) (results : List CatalogItem)
    (searchTerm : List Char) : List SearchResult :=
  (scoreResults currentYear results searchTerm).filter
    fun r => decide (10 ≤ r.relevanceScore)

/-- The score → filter → sort phase of `processSearchResults` (everything
before the franchise-grouping pass). -/
def rankedPhase (currentYear : Nat) (results : List CatalogItem)
    (searchTerm : List Char) : List SearchResult :=
  jsSort resultLe (filteredResults currentYear results searchTerm)

/-- Function `processSearchResults`: score, filter (`relevanceScore >= 10`), sort,
then group franchises. -/
def processSearchResults (currentYear : Nat) (results : List CatalogItem)
    (searchTerm : List Char) : List SearchResult :=
  if results = [] then []
  else groupFranchiseResults (rankedPhase currentYear results searchTerm) searchTerm

/-! Section: stream resolver and playback launcher

The Rust backend (`src-tauri/src/main.rs`, `src-tauri/src/torrent_streamer.rs`)
is present in this repository only through the code excerpts and prose of
`src/VIDEO_PLAYBACK_FIXES_SUMMARY.md`.  The definitions below are transcribed
from those excerpts where the excerpt shows the code, and modelled from the
specification where it does not. -/

/-- Index of the first occurrence of `needle` as a contiguous substring of
the second argument (Rust `str::find` on ASCII strings). -/
def findSubIdx (needle : List Char) : List Char → Option Nat
  | [] => if startsWithL needle [] then some 0 else none
  | c :: cs =>
      if startsWithL needle (c :: cs) then some 0
      else (findSubIdx needle cs).map (· + 1)

/-- Function `extract_torrent_hash` (excerpted in
`VIDEO_PLAYBACK_FIXES_SUMMARY.md`): locate the first `"btih:"` marker,
read up to the next `'&'` or the end of the string, and lowercase.  The
excerpt elides the marker-absent branch; the specification says it fails
with a descriptive error, modelled here as the `Except.error` case. -/
def extract_torrent_hash (magnetLink : List Char) : Except (List Char) (List Char) :=
  match findSubIdx (str "btih:") magnetLink with
  | some start =>
      let hashStart := start + 5
      .ok (((magnetLink.drop hashStart).takeWhile (fun c => c ≠ '&')).map jsLowerChar)
  | none => .error (str "No torrent hash found in magnet link")

/-- One entry of a directory listing, as far as the video-file search
reads it: its path, whether it is a regular file, and its extension. -/
structure FileEntry where
  path : List Char
  isFile : Bool
  ext : Option (List Char)
deriving DecidableEq

/-- The fixed video-extension list of `find_video_file_in_hash_dir`. -/
def video_extensions : List (List Char) :=
  [str "mp4", str "mkv", str "avi", str "mov", str "wmv", str "flv",
   str "webm", str "m4v"]

/-- Is this entry a regular file whose lowercased extension is in the
fixed list? -/
def isVideoFile (e : FileEntry) : Bool :=
  e.isFile &&
    match e.ext with
    | some x => video_extensions.any (fun v => v = jsLower x)
    | none => false

/-- Function `find_video_file_in_hash_dir` (excerpted): the first entry
of the hash directory that is a video file, if any. -/
def find_video_file_in_hash_dir (entries : List FileEntry) : Option (List Char) :=
  (entries.find? isVideoFile).map (·.path)

/-- Modelled from the spec: the bounded directory poll of stream
resolution ("poll a cache directory ... at a fixed interval, for up to a
bounded total wait").  `listings` holds one snapshot of the hash
directory per poll attempt, so its length is the attempt bound; the poll
stops at the first snapshot containing a video file. -/
def pollForVideo : List (List FileEntry) → Option (List Char)
  | [] => none
  | l :: rest =>
      match find_video_file_in_hash_dir l with
      | some p => some p
      | none => pollForVideo rest

/-- The target of a resolved stream: a local file or a remote endpoint. -/
inductive MediaTarget where
  | localFile (path : List Char) : MediaTarget
  | remoteEndpoint (url : List Char) : MediaTarget
deriving DecidableEq

/-- The `ResolvedMedia` record of the data model: a target plus a flag
marking the degraded (helper-endpoint) outcome. -/
structure ResolvedMedia where
  target : MediaTarget
  degraded : Bool
deriving DecidableEq

/-- The swarm helper's own local streaming endpoint
(`http://127.0.0.1:8888` in `torrent_streamer.rs`). -/
def helperEndpoint : List Char := str "http://127.0.0.1:8888"

/-- Modelled from the spec: swarm resolution (`play_video_external` for a
magnet URL).  Extract the hash (a malformed descriptor is fatal), then
poll the hash directory; a found video file resolves to a local file, and
an exhausted poll falls back to the helper's endpoint marked degraded —
the excerpt's `Err(e) => ... return Ok(local_url)` branch. -/
def resolveSwarm (magnetLink : List Char) (listings : List (List FileEntry)) :
    Except (List Char) ResolvedMedia :=
  match extract_torrent_hash magnetLink with
  | .error e => .error e
  | .ok _hash =>
      match pollForVideo listings with
      | some p => .ok ⟨.localFile p, false⟩
      | none => .ok ⟨.remoteEndpoint helperEndpoint, true⟩

/-- The fatal error returned when every player candidate fails to spawn
(abridged from the excerpt's remediation message). -/
def noPlayerError : List Char :=
  str "No video player found. Please install MPV or VLC"

/-- Modelled from the spec: the ordered external-player fallback chain of
`launch_external_player`.  `spawn` abstracts the process-spawn collaborator
(true = the binary spawned).  Candidates are tried strictly in order, a
failed spawn is skipped, the first success is returned without waiting on
the process, and an exhausted list is the fatal error. -/
def launch_external_player (spawn : List Char → Bool) :
    List (List Char) → Except (List Char) (List Char)
  | [] => .error noPlayerError
  | p :: rest => if spawn p then .ok p else launch_external_player spawn rest

/-- The configured candidate list (native engines first, then their
sandboxed/packaged variants). -/
def playerCandidates : List (List Char) :=
  [str "mpv", str "vlc", str "flatpak run io.mpv.Mpv",
   str "flatpak run org.videolan.VLC"]

/-- Modelled from the spec: the observable state of the swarm-helper
session manager in `torrent_streamer.rs`.  `running` lists the helper
processes that have been spawned and not yet terminated, `handle` is the
stored `peerflix_process` handle, `next` supplies fresh process ids. -/
structure StreamerState where
  running : List Nat
  handle : Option Nat
  next : Nat
deriving DecidableEq

/-- Function `stop_stream`: kill the helper process recorded in the
handle, if any, and clear the handle. -/
def stop_stream (s : StreamerState) : StreamerState :=
  match s.handle with
  | some pid =>
      { running := s.running.filter (fun q => decide (q ≠ pid)),
        handle := none, next := s.next }
  | none => s

/-- Function `start_stream` (excerpted): first `stop_stream` the prior
session, then spawn a fresh helper process and store its handle. -/
def start_stream (s : StreamerState) : StreamerState :=
  let s' := stop_stream s
  { running := s'.running ++ [s'.next], handle := some s'.next,
    next := s'.next + 1 }

/-- One externally observable action of the session manager. -/
inductive StreamerStep : StreamerState → StreamerState → Prop
  | start (s : StreamerState) : StreamerStep s (start_stream s)
  | stop (s : StreamerState) : StreamerStep s (stop_stream s)

/-- The initial state: no helper process, no handle. -/
def initialStreamer : StreamerState := ⟨[], none, 0⟩

/-- States reachable from the initial state by any sequence of
start/stop actions. -/
def StreamerReachable (s : StreamerState) : Prop :=
  Relation.ReflTransGen StreamerStep initialStreamer s

/-! Section: generic facts about the stable sort `jsSort` -/

theorem orderedInsertLe_perm (le : α → α → Bool) (a : α) (l : List α) :
    (orderedInsertLe le a l).Perm (a :: l) := by
  induction l with
  | nil => exact List.Perm.refl _
  | cons b bs ih =>
      by_cases h : le a b = true
      · simp [orderedInsertLe, h]
      · simp only [orderedInsertLe, h, if_false, Bool.false_eq_true]
        exact (ih.cons b).trans (List.Perm.swap a b bs)

theorem jsSort_perm (le : α → α → Bool) (l : List α) : (jsSort le l).Perm l := by
  induction l with
  | nil => exact List.Perm.refl _
  | cons a as ih => exact (orderedInsertLe_perm le a (jsSort le as)).trans (ih.cons a)

theorem mem_jsSort {le : α → α → Bool} {l : List α} {x : α} :
    x ∈ jsSort le l ↔ x ∈ l :=
  (jsSort_perm le l).mem_iff

theorem pairwise_orderedInsertLe (le : α → α → Bool)
    (htrans : ∀ a b c, le a b = true → le b c = true → le a c = true)
    (htot : ∀ a b, le a b = true ∨ le b a = true)
    (a : α) (l : List α) (h : l.Pairwise (le · · = true)) :
    (orderedInsertLe le a l).Pairwise (le · · = true) := by
  induction l with
  | nil => simp [orderedInsertLe]
  | cons b bs ih =>
      rcases h with - | ⟨hb, hbs⟩
      by_cases hab : le a b = true
      · simp only [orderedInsertLe, hab, if_true]
        refine .cons ?_ (.cons hb hbs)
        intro x hx
        rcases List.mem_cons.mp hx with hx | hx
        · exact hx ▸ hab
        · exact htrans a b x hab (hb x hx)
      · simp only [orderedInsertLe, hab, if_false, Bool.false_eq_true]
        refine .cons ?_ (ih hbs)
        intro x hx
        have hx' := (orderedInsertLe_perm le a bs).mem_iff.mp hx
        rcases List.mem_cons.mp hx' with hx2 | hx2
        · rcases htot a b with h' | h'
          · exact absurd h' hab
          · exact hx2 ▸ h'
        · exact hb x hx2

theorem pairwise_jsSort (le : α → α → Bool)
    (htrans : ∀ a b c, le a b = true → le b c = true → le a c = true)
    (htot : ∀ a b, le a b = true ∨ le b a = true)
    (l : List α) : (jsSort le l).Pairwise (le · · = true) := by
  induction l with
  | nil => simp [jsSort]
  | cons a as ih => exact pairwise_orderedInsertLe le htrans htot a _ ih

/-! Section: order properties of the result comparator -/

theorem resultLe_iff (a b : SearchResult) :
    resultLe a b = true ↔
      b.relevanceScore < a.relevanceScore ∨
        (a.relevanceScore = b.relevanceScore ∧
          (b.secondaryScore < a.secondaryScore ∨
            (a.secondaryScore = b.secondaryScore ∧
              a.originalIndex ≤ b.originalIndex))) := by
  unfold resultLe
  by_cases h1 : a.relevanceScore = b.relevanceScore
  · by_cases h2 : a.secondaryScore = b.secondaryScore
    · simp [h1, h2]
    · simp [h1, h2]
  · simp [h1]

theorem resultLe_total (a b : SearchResult) :
    resultLe a b = true ∨ resultLe b a = true := by
  rw [resultLe_iff, resultLe_iff]
  rcases Nat.lt_trichotomy a.relevanceScore b.relevanceScore with h | h | h
  · right; left; exact h
  · rcases lt_trichotomy a.secondaryScore b.secondaryScore with h2 | h2 | h2
    · right; right; exact ⟨h.symm, Or.inl h2⟩
    · rcases Nat.le_total a.originalIndex b.originalIndex with h3 | h3
      · left; right; exact ⟨h, Or.inr ⟨h2, h3⟩⟩
      · right; right; exact ⟨h.symm, Or.inr ⟨h2.symm, h3⟩⟩
    · left; right; exact ⟨h, Or.inl h2⟩
  · left; left; exact h

theorem resultLe_trans (a b c : SearchResult) :
    resultLe a b = true → resultLe b c = true → resultLe a c = true := by
  rw [resultLe_iff, resultLe_iff, resultLe_iff]
  rintro (h1 | ⟨e1, h1⟩) (h2 | ⟨e2, h2⟩)
  · left; omega
  · left; omega
  · left; omega
  · right
    refine ⟨e1.trans e2, ?_⟩
    rcases h1 with h1 | ⟨f1, g1⟩
    · rcases h2 with h2 | ⟨f2, g2⟩
      · left; exact h2.trans h1
      · left; exact f2 ▸ h1
    · rcases h2 with h2 | ⟨f2, g2⟩
      · left; exact f1 ▸ h2
      · right; exact ⟨f1.trans f2, g1.trans g2⟩

theorem resultLe_antisymm_keys (a b : SearchResult)
    (hab : resultLe a b = true) (hba : resultLe b a = true) :
    a.relevanceScore = b.relevanceScore ∧ a.secondaryScore = b.secondaryScore ∧
      a.originalIndex = b.originalIndex := by
  rw [resultLe_iff] at hab hba
  rcases hab with h1 | ⟨e1, h1⟩
  · rcases hba with h2 | ⟨e2, h2⟩
    · omega
    · omega
  · rcases hba with h2 | ⟨e2, h2⟩
    · omega
    · refine ⟨e1, ?_⟩
      rcases h1 with h1 | ⟨f1, g1⟩
      · rcases h2 with h2 | ⟨f2, g2⟩
        · exact absurd (h1.trans h2) (lt_irrefl _)
        · exact absurd (f2 ▸ h1) (lt_irrefl _)
      · rcases h2 with h2 | ⟨f2, g2⟩
        · exact absurd (f1 ▸ h2) (lt_irrefl _)
        · exact ⟨f1, Nat.le_antisymm g1 g2⟩

theorem yearLe_total (a b : SearchResult) : yearLe a b = true ∨ yearLe b a = true := by
  simp only [yearLe, decide_eq_true_eq]
  exact Nat.le_total _ _

theorem yearLe_trans (a b c : SearchResult) :
    yearLe a b = true → yearLe b c = true → yearLe a c = true := by
  simp only [yearLe, decide_eq_true_eq]
  exact Nat.le_trans

theorem groupLe_total (a b : List Char × List SearchResult) :
    groupLe a b = true ∨ groupLe b a = true := by
  simp only [groupLe, decide_eq_true_eq]
  exact le_total _ _

theorem groupLe_trans (a b c : List Char × List SearchResult) :
    groupLe a b = true → groupLe b c = true → groupLe a c = true := by
  simp only [groupLe, decide_eq_true_eq]
  intro h1 h2
  exact le_trans h2 h1

/-! Section: the franchise-grouping pass only permutes its input -/

theorem mem_addToGroups (gs : List (List Char × List SearchResult)) (k : List Char)
    (v r : SearchResult) (h : ∃ g ∈ addToGroups gs k v, r ∈ g.2) :
    (∃ g ∈ gs, r ∈ g.2) ∨ r = v := by
  induction gs with
  | nil =>
      rcases h with ⟨g, hg, hrg⟩
      simp only [addToGroups, List.mem_singleton] at hg
      subst hg
      simp only [List.mem_singleton] at hrg
      exact Or.inr hrg
  | cons p rest ih =>
      rcases h with ⟨g, hg, hrg⟩
      by_cases hk : p.1 = k
      · simp only [addToGroups, hk, if_true] at hg
        rcases List.mem_cons.mp hg with hg | hg
        · subst hg
          rcases List.mem_append.mp hrg with hr | hr
          · exact Or.inl ⟨p, List.mem_cons_self p rest, hr⟩
          · simp only [List.mem_singleton] at hr
            exact Or.inr hr
        · exact Or.inl ⟨g, List.mem_cons_of_mem p hg, hrg⟩
      · simp only [addToGroups, hk, if_false] at hg
        rcases List.mem_cons.mp hg with hg | hg
        · exact Or.inl ⟨g, hg ▸ List.mem_cons_self p rest, hrg⟩
        · rcases ih ⟨g, hg, hrg⟩ with ⟨g', hg', hrg'⟩ | he
          · exact Or.inl ⟨g', List.mem_cons_of_mem p hg', hrg'⟩
          · exact Or.inr he

theorem mem_groupFold (searchLower : List Char) (l : List SearchResult) :
    ∀ (gs0 : List (List Char × List SearchResult)) (st0 : List SearchResult)
      (r : SearchResult),
      ((∃ g ∈ (l.foldl (groupStep searchLower) (gs0, st0)).1, r ∈ g.2) ∨
        r ∈ (l.foldl (groupStep searchLower) (gs0, st0)).2) →
      (∃ g ∈ gs0, r ∈ g.2) ∨ r ∈ st0 ∨ r ∈ l := by
  induction l with
  | nil =>
      intro gs0 st0 r h
      simp only [List.foldl_nil] at h
      rcases h with h | h
      · exact Or.inl h
      · exact Or.inr (Or.inl h)
  | cons x xs ih =>
      intro gs0 st0 r h
      simp only [List.foldl_cons] at h
      rcases hkey : franchiseKey searchLower x with - | k
      · simp only [groupStep, hkey] at h
        rcases ih gs0 (st0 ++ [x]) r h with h' | h' | h'
        · exact Or.inl h'
        · rcases List.mem_append.mp h' with h'' | h''
          · exact Or.inr (Or.inl h'')
          · simp only [List.mem_singleton] at h''
            exact Or.inr (Or.inr (h'' ▸ List.mem_cons_self x xs))
        · exact Or.inr (Or.inr (List.mem_cons_of_mem x h'))
      · simp only [groupStep, hkey] at h
        rcases ih (addToGroups gs0 k x) st0 r h with h' | h' | h'
        · rcases mem_addToGroups gs0 k x r h' with h'' | h''
          · exact Or.inl h''
          · exact Or.inr (Or.inr (h'' ▸ List.mem_cons_self x xs))
        · exact Or.inr (Or.inl h')
        · exact Or.inr (Or.inr (List.mem_cons_of_mem x h'))

theorem mem_of_mem_groupFranchiseResults {results : List SearchResult}
    {searchTerm : List Char} {r : SearchResult}
    (h : r ∈ groupFranchiseResults results searchTerm) : r ∈ results := by
  unfold groupFranchiseResults at h
  rcases List.mem_append.mp h with h1 | h1
  · rcases List.mem_flatten.mp h1 with ⟨l', hl', hr'⟩
    rcases List.mem_map.mp hl' with ⟨g, hg, hgl⟩
    have hg' : g ∈ (buildGroups (jsLower searchTerm) results).1 :=
      mem_jsSort.mp hg
    have hr2 : r ∈ g.2 := mem_jsSort.mp (hgl ▸ hr')
    have := mem_groupFold (jsLower searchTerm) results [] [] r
      (Or.inl ⟨g, hg', hr2⟩)
    rcases this with h' | h' | h'
    · simp at h'
    · simp at h'
    · exact h'
  · have := mem_groupFold (jsLower searchTerm) results [] [] r (Or.inr h1)
    rcases this with h' | h' | h'
    · simp at h'
    · simp at h'
    · exact h'

/-! Section: claim C1 -/

/-- C1: every `SearchResult` returned by the ranking pipeline
(`processSearchResults`) has `relevanceScore ≥ 10` — items below the
threshold are discarded by the filter, and the franchise-grouping pass
only permutes the filtered list, neither changing any `relevanceScore`
nor reintroducing a discarded item. -/
theorem c1_filter_lower_bound (currentYear : Nat) (results : List CatalogItem)
    (searchTerm : List Char) (r : SearchResult)
    (hr : r ∈ processSearchResults currentYear results searchTerm) :
    10 ≤ r.relevanceScore := by
  unfold processSearchResults at hr
  by_cases hres : results = []
  · simp [hres] at hr
  · simp only [hres, if_false] at hr
    have h1 : r ∈ rankedPhase currentYear results searchTerm :=
      mem_of_mem_groupFranchiseResults hr
    have h2 : r ∈ filteredResults currentYear results searchTerm :=
      mem_jsSort.mp h1
    have h3 := (List.mem_filter.mp h2).2
    simpa using h3

/-- Witness for C1 at a concrete input: the single item "Cars" under the
query "cars" survives with relevance score 100 ≥ 10. -/
theorem c1_filter_lower_bound_witness :
    (⟨⟨str "Cars", 2006, 0, str "movie"⟩, 100, 12, 0⟩ : SearchResult) ∈
        processSearchResults 2026 [⟨str "Cars", 2006, 0, str "movie"⟩] (str "cars") ∧
      10 ≤ (⟨⟨str "Cars", 2006, 0, str "movie"⟩, 100, 12, 0⟩ : SearchResult).relevanceScore :=
  ⟨by decide!,
    c1_filter_lower_bound 2026 [⟨str "Cars", 2006, 0, str "movie"⟩] (str "cars")
      ⟨⟨str "Cars", 2006, 0, str "movie"⟩, 100, 12, 0⟩ (by decide!)⟩

/-! Section: claim C2 -/

/-- The ordering the specification asserts of ranked output:
non-increasing `relevanceScore`, and non-increasing `secondaryScore`
within runs of equal `relevanceScore`. -/
def rankedOrder (a b : SearchResult) : Prop :=
  b.relevanceScore < a.relevanceScore ∨
    (b.relevanceScore = a.relevanceScore ∧ b.secondaryScore ≤ a.secondaryScore)

instance : DecidableRel rankedOrder := fun a b => by
  unfold rankedOrder
  infer_instance

/-- Counterexample to C2 as stated: for the query "cars" on the items
"Cars" (year 2020) and "Cars 2" (year 2000), the franchise-grouping pass
re-sorts the group ascending by year, so the returned list is
["Cars 2" (score 90), "Cars" (score 100)] — not non-increasing in
`relevanceScore`. -/
theorem c2_counterexample :
    ¬ List.Sorted rankedOrder
        (processSearchResults 2026
          [⟨str "Cars", 2020, 0, str "movie"⟩, ⟨str "Cars 2", 2000, 0, str "movie"⟩]
          (str "cars")) := by
  decide!

/-- C2 amended: the sortedness invariant holds of the intermediate list
produced by the sort step (`rankedPhase`, i.e. the list before the
franchise-grouping pass), not of the final returned list, which the
grouping pass may reorder (group members are re-sorted ascending by
year). -/
theorem c2_rankedPhase_sorted (currentYear : Nat) (results : List CatalogItem)
    (searchTerm : List Char) :
    List.Sorted rankedOrder (rankedPhase currentYear results searchTerm) := by
  have h := pairwise_jsSort resultLe resultLe_trans resultLe_total
    (filteredResults currentYear results searchTerm)
  refine h.imp ?_
  intro a b hab
  rcases (resultLe_iff a b).mp hab with h1 | ⟨e1, h1⟩
  · exact Or.inl h1
  · refine Or.inr ⟨e1.symm, ?_⟩
    rcases h1 with h1 | ⟨f1, -⟩
    · exact le_of_lt h1
    · exact le_of_eq f1.symm

/-! Section: claims C3 and C4 -/

/-- C3 evaluated at its failing input: the name "Cars 2" with the term
"cars" gets no franchise boost, because the numbered-sequel pattern is
compiled from a template literal in which `\s` and `\d` are not string
escapes, leaving the literal pattern `carss+d+`; the final score is the
bare 90 of the starts-with tier, not 105.  (The code's own comment says
the pattern is meant to match "cars 2", and the specification promises
the +15 boost for a term followed by a number.) -/
theorem c3_cars2_gets_no_boost :
    detectFranchiseBoost (str "cars 2") (str "cars") = 0 ∧
      calculateRelevanceScore ⟨str "Cars 2", 2011, 0, str "movie"⟩ (str "cars") = 90 := by
  decide!

/-- Evaluation of the pipeline at the specification's example instance
with the films' actual release years. -/
theorem cars_pipeline_example :
    (processSearchResults 2026
        [⟨str "Cars", 2006, 0, str "movie"⟩, ⟨str "Cars 2", 2011, 0, str "movie"⟩,
         ⟨str "Cars 3", 2017, 0, str "movie"⟩, ⟨str "Race Cars Weekly", 2019, 0, str "movie"⟩]
        (str "cars")).map (fun r => (r.item.name, r.item.year)) =
      [(str "Cars", 2006), (str "Cars 2", 2011), (str "Cars 3", 2017),
       (str "Race Cars Weekly", 2019)] := by
  decide!

/-! Section: claim C10 -/

theorem startsWithL_append_left :
    ∀ (p q t : List Char), startsWithL (p ++ q) t = true → startsWithL p t = true := by
  intro p
  induction p with
  | nil => intro q t _; rfl
  | cons a ps ih =>
      intro q t h
      cases t with
      | nil => simp [startsWithL] at h
      | cons c cs =>
          simp only [List.cons_append, startsWithL, Bool.and_eq_true] at h ⊢
          exact ⟨h.1, ih q cs h.2⟩

/-- The tier chain can only produce 100, 90, 80, 70 or 0: its 85 branch
(`title.startsWith(term + " ")`) is shadowed by the earlier
`title.startsWith(term)` branch. -/
theorem tierScore_cases (title term : List Char) :
    tierScore title term = 100 ∨ tierScore title term = 90 ∨
      tierScore title term = 80 ∨ tierScore title term = 70 ∨
      tierScore title term = 0 := by
  unfold tierScore
  split_ifs with h1 h2 h3 h4 h5 h6
  · exact Or.inl rfl
  · exact Or.inr (Or.inl rfl)
  · exact Or.inr (Or.inl rfl)
  · exact absurd (startsWithL_append_left term [' '] title h4) h2
  · exact Or.inr (Or.inr (Or.inl rfl))
  · exact Or.inr (Or.inr (Or.inr (Or.inl rfl)))
  · exact Or.inr (Or.inr (Or.inr (Or.inr rfl)))

theorem baseScore_fold_cases (title : List Char) :
    ∀ (terms : List (List Char)) (s : Nat),
      (s = 0 ∨ s = 70 ∨ s = 80 ∨ s = 90 ∨ s = 100) →
      (terms.foldl (fun s t => max s (tierScore title t)) s = 0 ∨
        terms.foldl (fun s t => max s (tierScore title t)) s = 70 ∨
        terms.foldl (fun s t => max s (tierScore title t)) s = 80 ∨
        terms.foldl (fun s t => max s (tierScore title t)) s = 90 ∨
        terms.foldl (fun s t => max s (tierScore title t)) s = 100) := by
  intro terms
  induction terms with
  | nil => intro s hs; exact hs
  | cons t ts ih =>
      intro s hs
      simp only [List.foldl_cons]
      refine ih (max s (tierScore title t)) ?_
      have ht := tierScore_cases title t
      rcases Nat.le_total s (tierScore title t) with h | h
      · rw [Nat.max_eq_right h]
        rcases ht with h' | h' | h' | h' | h' <;> omega
      · rw [Nat.max_eq_left h]
        exact hs

/-- C10: for every item name and query, the base relevance score (the
value `calculateRelevanceScore` accumulates before adding the franchise
boost) lies in {0, 70, 80, 90, 100}; in particular the 85-point tier of
`tierScore` is unreachable because the 90-point starts-with check is
evaluated first. -/
theorem c10_base_score_tiers :
    (∀ name searchTerm : List Char,
        baseRelevanceScore name searchTerm = 0 ∨
          baseRelevanceScore name searchTerm = 70 ∨
          baseRelevanceScore name searchTerm = 80 ∨
          baseRelevanceScore name searchTerm = 90 ∨
          baseRelevanceScore name searchTerm = 100) ∧
      (∀ title term : List Char, tierScore title term ≠ 85) := by
  constructor
  · intro name searchTerm
    unfold baseRelevanceScore
    exact baseScore_fold_cases _ _ 0 (Or.inl rfl)
  · intro title term
    rcases tierScore_cases title term with h | h | h | h | h <;> omega

/-! Section: claim C7 -/

theorem pollForVideo_none (listings : List (List FileEntry))
    (h : ∀ l ∈ listings, ∀ e ∈ l, isVideoFile e = false) :
    pollForVideo listings = none := by
  induction listings with
  | nil => rfl
  | cons l ls ih =>
      have hfind : l.find? isVideoFile = none := by
        rw [List.find?_eq_none]
        intro e he
        simp [h l (List.mem_cons_self l ls) e he]
      simp only [pollForVideo, find_video_file_in_hash_dir, hfind, Option.map_none]
      exact ih (fun l' hl' => h l' (List.mem_cons_of_mem l hl'))

/-- C7: when no snapshot of the hash directory within the bounded poll
contains a file with a video extension, swarm resolution still succeeds,
returning the helper's own endpoint marked degraded — the condition is
never surfaced as an error (only a malformed descriptor is). -/
theorem c7_degraded_fallback (magnetLink : List Char)
    (listings : List (List FileEntry))
    (hok : (extract_torrent_hash magnetLink).isOk = true)
    (hempty : ∀ l ∈ listings, ∀ e ∈ l, isVideoFile e = false) :
    resolveSwarm magnetLink listings = .ok ⟨.remoteEndpoint helperEndpoint, true⟩ := by
  unfold resolveSwarm
  rcases hx : extract_torrent_hash magnetLink with e | h
  · rw [hx] at hok
    simp [Except.isOk, Except.toBool] at hok
  · simp only [pollForVideo_none listings hempty]

/-- Witness for C7: a well-formed magnet descriptor and a single poll
snapshot holding only a text file resolve to the degraded endpoint. -/
theorem c7_degraded_fallback_witness :
    resolveSwarm (str "magnet:?xt=urn:btih:AB12&dn=Movie")
        [[⟨str "notes.txt", true, some (str "txt")⟩]] =
      .ok ⟨.remoteEndpoint helperEndpoint, true⟩ :=
  c7_degraded_fallback (str "magnet:?xt=urn:btih:AB12&dn=Movie")
    [[⟨str "notes.txt", true, some (str "txt")⟩]] (by decide!) (by decide!)

/-! Section: claim C8 -/

/-- C8: the launcher tries the candidates strictly in order; a failed
spawn is skipped, the first successful spawn is accepted and attributed
to that candidate (later candidates untried), and the fatal
"No video player found" error is returned exactly when every candidate's
spawn fails. -/
theorem c8_player_fallback (spawn : List Char → Bool) :
    (∀ players : List (List Char),
        launch_external_player spawn players = .error noPlayerError ↔
          ∀ p ∈ players, spawn p = false) ∧
      (∀ (pre : List (List Char)) (p : List Char) (post : List (List Char)),
        (∀ q ∈ pre, spawn q = false) → spawn p = true →
        launch_external_player spawn (pre ++ p :: post) = .ok p) := by
  constructor
  · intro players
    induction players with
    | nil => simp [launch_external_player]
    | cons q rest ih =>
        by_cases hq : spawn q = true
        · simp [launch_external_player, hq]
        · simp only [Bool.not_eq_true] at hq
          simp [launch_external_player, hq, ih]
  · intro pre
    induction pre with
    | nil =>
        intro p post _ hp
        simp [launch_external_player, hp]
    | cons q qs ih =>
        intro p post hpre hp
        have hq : spawn q = false := hpre q (List.mem_cons_self q qs)
        simp only [List.cons_append, launch_external_player, hq, Bool.false_eq_true,
          if_false]
        exact ih p post (fun x hx => hpre x (List.mem_cons_of_mem q hx)) hp

/-- Witness for C8, the specification's own scenario: "mpv" fails to
spawn, "vlc" succeeds, so launch succeeds attributed to "vlc". -/
theorem c8_player_fallback_witness :
    launch_external_player (fun s => decide (s = str "vlc")) playerCandidates =
      .ok (str "vlc") :=
  (c8_player_fallback (fun s => decide (s = str "vlc"))).2
    [str "mpv"] (str "vlc")
    [str "flatpak run io.mpv.Mpv", str "flatpak run org.videolan.VLC"]
    (by decide) (by decide)

/-! Section: claim C9 -/

/-- The single-flight invariant: at most one helper process is live, and
a live process is the one recorded in the handle. -/
def streamerInv (s : StreamerState) : Prop :=
  s.running = [] ∨ ∃ p, s.running = [p] ∧ s.handle = some p

theorem stop_stream_running (s : StreamerState) (h : streamerInv s) :
    (stop_stream s).running = [] := by
  rcases hh : s.handle with - | pid
  · rcases h with h | ⟨p, -, hp⟩
    · simpa [stop_stream, hh]
    · rw [hh] at hp; exact absurd hp (by simp)
  · rcases h with h | ⟨p, hr, hp⟩
    · simp [stop_stream, hh, h]
    · rw [hh] at hp
      rcases Option.some_inj.mp hp with rfl
      simp [stop_stream, hh, hr]

theorem streamerInv_step {s s' : StreamerState} (h : streamerInv s)
    (hstep : StreamerStep s s') : streamerInv s' := by
  cases hstep with
  | start =>
      refine Or.inr ⟨(stop_stream s).next, ?_, rfl⟩
      simp [start_stream, stop_stream_running s h]
  | stop =>
      exact Or.inl (stop_stream_running s h)

theorem streamerReachable_inv (s : StreamerState) (h : StreamerReachable s) :
    streamerInv s := by
  induction h with
  | refl => exact Or.inl rfl
  | tail _ hstep ih => exact streamerInv_step ih hstep

/-- C9: starting a new swarm resolution first terminates the prior
session's helper (`start_stream` runs `stop_stream` before spawning), so
in every reachable state of the session manager at most one helper
process is live. -/
theorem c9_single_flight (s : StreamerState) (h : StreamerReachable s) :
    s.running.length ≤ 1 := by
  rcases streamerReachable_inv s h with h' | ⟨p, h', -⟩
  · simp [h']
  · simp [h']

/-- Witness for C9: the state after two back-to-back `start_stream`
actions is reachable and still has at most one live helper. -/
theorem c9_single_flight_witness :
    StreamerReachable (start_stream (start_stream initialStreamer)) ∧
      (start_stream (start_stream initialStreamer)).running.length ≤ 1 :=
  ⟨.tail (.tail .refl (.start _)) (.start _),
    c9_single_flight _ (.tail (.tail .refl (.start _)) (.start _))⟩

/-! Section: claim C5 -/

/-- The strict version of the result comparator's order.  Because
`originalIndex` is a tie-break of last resort, two list entries with
distinct`originalIndex` are always strictly ordered one way. -/
def resultLt (a b : SearchResult) : Prop :=
  resultLe a b = true ∧ resultLe b a = false

instance : DecidableRel resultLt := fun a b => by
  unfold resultLt
  infer_instance

instance : IsAntisymm SearchResult resultLt :=
  ⟨fun a b h1 h2 => absurd h2.1 (by simp [h1.2])⟩

theorem filteredResults_pairwise_idx (currentYear : Nat)
    (results : List CatalogItem) (searchTerm : List Char) :
    (filteredResults currentYear results searchTerm).Pairwise
      (fun a b => a.originalIndex < b.originalIndex) := by
  have h1 : (results.enum.map Prod.fst).Pairwise (· < ·) := by
    rw [List.enum_map_fst]
    exact List.pairwise_lt_range _
  have h2 : results.enum.Pairwise (fun p q => p.1 < q.1) :=
    List.pairwise_map.mp h1
  have h3 : (scoreResults currentYear results searchTerm).Pairwise
      (fun a b => a.originalIndex < b.originalIndex) := by
    unfold scoreResults
    exact List.pairwise_map.mpr h2
  exact h3.filter _

theorem rankedPhase_pairwise_lt (currentYear : Nat) (results : List CatalogItem)
    (searchTerm : List Char) :
    (rankedPhase currentYear results searchTerm).Pairwise resultLt := by
  have hle := pairwise_jsSort resultLe resultLe_trans resultLe_total
    (filteredResults currentYear results searchTerm)
  have hne : (rankedPhase currentYear results searchTerm).Pairwise
      (fun a b => a.originalIndex ≠ b.originalIndex) := by
    refine ((jsSort_perm resultLe _).pairwise_iff (fun h => Ne.symm h)).mpr ?_
    exact (filteredResults_pairwise_idx currentYear results searchTerm).imp
      Nat.ne_of_lt
  refine (hle.and hne).imp ?_
  intro a b hab
  refine ⟨hab.1, ?_⟩
  by_contra hba
  simp only [Bool.not_eq_false] at hba
  exact hab.2 (resultLe_antisymm_keys a b hab.1 hba).2.2

/-- C5: the ranking pipeline is deterministic — its output is a function
of the raw results, the query and the current year alone.  Concretely:
the sort step's output is the unique reordering of the filtered scored
list that is sorted under the comparator's strict order (strict because
`originalIndex` breaks all ties), so any correct stable sort — hence any
two runs under the same clock — produces the same final list after
grouping. -/
theorem c5_rank_deterministic (currentYear : Nat) (results : List CatalogItem)
    (searchTerm : List Char) (l : List SearchResult)
    (hperm : l.Perm (filteredResults currentYear results searchTerm))
    (hsorted : List.Sorted resultLt l) :
    groupFranchiseResults l searchTerm =
      processSearchResults currentYear results searchTerm := by
  have hl : l = rankedPhase currentYear results searchTerm := by
    refine List.eq_of_perm_of_sorted
      (hperm.trans (jsSort_perm resultLe _).symm) hsorted ?_
    exact rankedPhase_pairwise_lt currentYear results searchTerm
  subst hl
  unfold processSearchResults
  by_cases h : results = []
  · subst h
    rfl
  · simp only [h, if_false]

/-- Witness for C5 at a concrete input: the singleton catalog
["a"] under query "a". -/
theorem c5_rank_deterministic_witness :
    ([⟨⟨str "a", 0, 0, str "movie"⟩, 100, 2, 0⟩] : List SearchResult).Perm
        (filteredResults 2026 [⟨str "a", 0, 0, str "movie"⟩] (str "a")) ∧
      groupFranchiseResults [⟨⟨str "a", 0, 0, str "movie"⟩, 100, 2, 0⟩] (str "a") =
        processSearchResults 2026 [⟨str "a", 0, 0, str "movie"⟩] (str "a") := by
  have hperm : ([⟨⟨str "a", 0, 0, str "movie"⟩, 100, 2, 0⟩] : List SearchResult).Perm
      (filteredResults 2026 [⟨str "a", 0, 0, str "movie"⟩] (str "a")) := by
    rw [show filteredResults 2026 [⟨str "a", 0, 0, str "movie"⟩] (str "a") =
      [⟨⟨str "a", 0, 0, str "movie"⟩, 100, 2, 0⟩] from by decide!]
  refine ⟨hperm, c5_rank_deterministic 2026 _ _ _ hperm ?_⟩
  exact List.pairwise_singleton _ _

/-! Section: claim C6 -/

theorem startsWithL_iff_take (p : List Char) :
    ∀ s : List Char, startsWithL p s = true ↔ s.take p.length = p := by
  induction p with
  | nil => intro s; simp [startsWithL]
  | cons a ps ih =>
      intro s
      cases s with
      | nil => simp [startsWithL]
      | cons c cs =>
          simp only [startsWithL, Bool.and_eq_true, decide_eq_true_eq,
            List.length_cons, List.take_succ_cons, List.cons.injEq, ih cs]
          constructor
          · rintro ⟨h1, h2⟩; exact ⟨h1.symm, h2⟩
          · rintro ⟨h1, h2⟩; exact ⟨h1.symm, h2⟩

theorem containsSubL_iff_exists (p : List Char) :
    ∀ s : List Char, containsSubL p s = true ↔
      ∃ i, startsWithL p (s.drop i) = true := by
  intro s
  induction s with
  | nil =>
      simp only [containsSubL, List.drop_nil]
      exact ⟨fun h => ⟨0, h⟩, fun ⟨_, h⟩ => h⟩
  | cons c cs ih =>
      simp only [containsSubL, Bool.or_eq_true, ih]
      constructor
      · rintro (h | ⟨i, h⟩)
        · exact ⟨0, by simpa using h⟩
        · exact ⟨i + 1, by simpa [List.drop_succ_cons] using h⟩
      · rintro ⟨i, h⟩
        cases i with
        | zero => exact Or.inl (by simpa using h)
        | succ j => exact Or.inr ⟨j, by simpa [List.drop_succ_cons] using h⟩

theorem findSubIdx_eq_none_iff (p : List Char) :
    ∀ s : List Char, findSubIdx p s = none ↔ containsSubL p s = false := by
  intro s
  induction s with
  | nil =>
      cases h : startsWithL p [] <;> simp [findSubIdx, containsSubL, h]
  | cons c cs ih =>
      cases h : startsWithL p (c :: cs) <;>
        simp [findSubIdx, containsSubL, h, ih]

theorem findSubIdx_some_spec (p : List Char) :
    ∀ (s : List Char) (i : Nat), findSubIdx p s = some i →
      startsWithL p (s.drop i) = true ∧
        ∀ j, j < i → startsWithL p (s.drop j) = false := by
  intro s
  induction s with
  | nil =>
      intro i h
      by_cases hp : startsWithL p [] = true
      · simp only [findSubIdx, hp, if_true, Option.some_inj] at h
        subst h
        exact ⟨by simpa using hp, fun j hj => absurd hj (Nat.not_lt_zero j)⟩
      · simp only [findSubIdx, hp, if_false] at h
        cases h
  | cons c cs ih =>
      intro i h
      by_cases hp : startsWithL p (c :: cs) = true
      · simp only [findSubIdx, hp, if_true, Option.some_inj] at h
        subst h
        exact ⟨by simpa using hp, fun j hj => absurd hj (Nat.not_lt_zero j)⟩
      · have hstep : findSubIdx p (c :: cs) = (findSubIdx p cs).map (· + 1) := by
          simp [findSubIdx, hp]
        rw [hstep] at h
        rcases hfind : findSubIdx p cs with - | i'
        · rw [hfind] at h
          cases h
        · rw [hfind, Option.map_some'] at h
          obtain rfl : i' + 1 = i := Option.some_inj.mp h
          obtain ⟨h1, h2⟩ := ih i' hfind
          refine ⟨by simpa [List.drop_succ_cons] using h1, ?_⟩
          intro j hj
          cases j with
          | zero =>
              simpa using (Bool.not_eq_true _).mp hp
          | succ j' =>
              simpa [List.drop_succ_cons] using h2 j' (Nat.lt_of_succ_lt_succ hj)

theorem startsWithL_self_append (p t : List Char) :
    startsWithL p (p ++ t) = true :=
  (startsWithL_iff_take p (p ++ t)).mpr (List.take_left p t)

theorem startsWithL_take_of_le (p d : List Char) (j n : Nat)
    (h : startsWithL p (d.drop j) = true) (hn : j + p.length ≤ n) :
    startsWithL p ((d.take n).drop j) = true := by
  rw [startsWithL_iff_take] at h ⊢
  rw [List.drop_take, List.take_take]
  rw [show p.length ⊓ (n - j) = p.length from Nat.min_eq_left (by omega)]
  exact h

theorem findSubIdx_append_marker (u v m : List Char) (hm : m ≠ [])
    (hno : containsSubL m ((u ++ m).dropLast) = false) :
    findSubIdx m (u ++ m ++ v) = some u.length := by
  have hocc : startsWithL m ((u ++ m ++ v).drop u.length) = true := by
    rw [List.append_assoc, List.drop_left]
    exact startsWithL_self_append m v
  have hnotnone : findSubIdx m (u ++ m ++ v) ≠ none := by
    intro hn
    have hfalse := (findSubIdx_eq_none_iff m (u ++ m ++ v)).mp hn
    have htrue : containsSubL m (u ++ m ++ v) = true :=
      (containsSubL_iff_exists m (u ++ m ++ v)).mpr ⟨u.length, hocc⟩
    rw [htrue] at hfalse
    cases hfalse
  obtain ⟨i, hi⟩ := Option.ne_none_iff_exists'.mp hnotnone
  obtain ⟨hstart, hbefore⟩ := findSubIdx_some_spec m (u ++ m ++ v) i hi
  have hmlen : 1 ≤ m.length := by
    cases m with
    | nil => exact absurd rfl hm
    | cons a as => simp
  have hle : i ≤ u.length := by
    by_contra hgt
    push_neg at hgt
    rw [hbefore u.length hgt] at hocc
    cases hocc
  have hnotlt : ¬ i < u.length := by
    intro hlt
    have hdl : (u ++ m).dropLast = (u ++ m ++ v).take (u.length + m.length - 1) := by
      have hk : u.length + m.length - 1 ≤ (u ++ m).length := by
        rw [List.length_append]
        omega
      rw [List.dropLast_eq_take, List.length_append,
        List.take_append_of_le_length hk]
    have hin : startsWithL m (((u ++ m).dropLast).drop i) = true := by
      rw [hdl]
      exact startsWithL_take_of_le m (u ++ m ++ v) i _ hstart (by omega)
    have : containsSubL m ((u ++ m).dropLast) = true :=
      (containsSubL_iff_exists m ((u ++ m).dropLast)).mpr ⟨i, hin⟩
    rw [hno] at this
    cases this
  have : i = u.length := by omega
  rw [this] at hi
  exact hi

/-- C6: hash extraction returns the lowercased stretch of the descriptor
strictly between the end of the first occurrence of the marker `"btih:"`
and the next `'&'` (or the end of the string), and fails with the
descriptive error exactly when the marker is absent.  The first
conjunct's hypothesis says the shown occurrence of the marker is the
first one (no occurrence starts before it). -/
theorem c6_extract_torrent_hash :
    (∀ u v : List Char,
        containsSubL (str "btih:") ((u ++ str "btih:").dropLast) = false →
        extract_torrent_hash (u ++ str "btih:" ++ v) =
          .ok ((v.takeWhile (fun c => c ≠ '&')).map jsLowerChar)) ∧
      (∀ d : List Char, containsSubL (str "btih:") d = false →
        extract_torrent_hash d = .error (str "No torrent hash found in magnet link")) := by
  constructor
  · intro u v hno
    have hfind := findSubIdx_append_marker u v (str "btih:") (by decide) hno
    have hdrop : (u ++ str "btih:" ++ v).drop (u.length + 5) = v := by
      have hlen : (u ++ str "btih:").length = u.length + 5 := by
        rw [List.length_append]
        rfl
      rw [← hlen, List.drop_left]
    unfold extract_torrent_hash
    rw [hfind]
    simp only [hdrop]
  · intro d hd
    have hfind := (findSubIdx_eq_none_iff (str "btih:") d).mpr hd
    unfold extract_torrent_hash
    rw [hfind]

/-- Witness for C6: the specification's own example descriptor yields
`"abcdef0123"`, and a marker-free descriptor yields the error. -/
theorem c6_extract_torrent_hash_witness :
    extract_torrent_hash (str "swarm:?xt=urn:btih:ABCDEF0123&dn=Movie") =
        .ok (str "abcdef0123") ∧
      extract_torrent_hash (str "swarm:?xt=urn:") =
        .error (str "No torrent hash found in magnet link") := by
  constructor
  · have h := c6_extract_torrent_hash.1 (str "swarm:?xt=urn:")
      (str "ABCDEF0123&dn=Movie") (by decide)
    rw [show str "swarm:?xt=urn:" ++ str "btih:" ++ str "ABCDEF0123&dn=Movie" =
      str "swarm:?xt=urn:btih:ABCDEF0123&dn=Movie" from by decide] at h
    rw [h]
    exact congrArg Except.ok (by decide)
  · exact c6_extract_torrent_hash.2 (str "swarm:?xt=urn:") (by decide)

/-! Section: claim C4, universally over years, ratings, types and clock -/

/-- When every incoming result either carries the single key `k0` or no
key, the grouping fold started on an existing `k0`-group appends the
keyed results to that group and the unkeyed ones to the standalones. -/
theorem groupFold_single_key (sl k0 : List Char) :
    ∀ (l : List SearchResult) (g0 st0 : List SearchResult),
      (∀ r ∈ l, franchiseKey sl r = some k0 ∨ franchiseKey sl r = none) →
      l.foldl (groupStep sl) ([(k0, g0)], st0) =
        ([(k0, g0 ++ l.filter (fun r => (franchiseKey sl r).isSome))],
          st0 ++ l.filter (fun r => (franchiseKey sl r).isNone)) := by
  intro l
  induction l with
  | nil => intro g0 st0 _; simp
  | cons x xs ih =>
      intro g0 st0 hcls
      rcases hcls x (List.mem_cons_self x xs) with hx | hx
      · simp only [List.foldl_cons, groupStep, hx]
        rw [show addToGroups [(k0, g0)] k0 x = [(k0, g0 ++ [x])] from by
          simp [addToGroups]]
        rw [ih (g0 ++ [x]) st0 (fun r hr => hcls r (List.mem_cons_of_mem x hr))]
        simp [List.filter_cons, hx, List.append_assoc]
      · simp only [List.foldl_cons, groupStep, hx]
        rw [ih g0 (st0 ++ [x]) (fun r hr => hcls r (List.mem_cons_of_mem x hr))]
        simp [List.filter_cons, hx, List.append_assoc]

/-- When every incoming result carries key `k0` or no key, the grouping
fold builds at most one group: the keyed results in order, with the
unkeyed ones as standalones. -/
theorem groupFold_from_nil (sl k0 : List Char) :
    ∀ (l : List SearchResult) (st0 : List SearchResult),
      (∀ r ∈ l, franchiseKey sl r = some k0 ∨ franchiseKey sl r = none) →
      l.foldl (groupStep sl) ([], st0) =
        ((if l.filter (fun r => (franchiseKey sl r).isSome) = [] then []
            else [(k0, l.filter (fun r => (franchiseKey sl r).isSome))]),
          st0 ++ l.filter (fun r => (franchiseKey sl r).isNone)) := by
  intro l
  induction l with
  | nil => intro st0 _; simp
  | cons x xs ih =>
      intro st0 hcls
      rcases hcls x (List.mem_cons_self x xs) with hx | hx
      · simp only [List.foldl_cons, groupStep, hx]
        rw [show addToGroups [] k0 x = [(k0, [x])] from rfl]
        rw [groupFold_single_key sl k0 xs [x] st0
          (fun r hr => hcls r (List.mem_cons_of_mem x hr))]
        simp [List.filter_cons, hx]
      · simp only [List.foldl_cons, groupStep, hx]
        rw [ih (st0 ++ [x]) (fun r hr => hcls r (List.mem_cons_of_mem x hr))]
        simp [List.filter_cons, hx, List.append_assoc]

/-- Unfolding of `groupFranchiseResults` through its let-destructuring
(definitional, by structure eta). -/
theorem groupFranchiseResults_eq (l : List SearchResult) (q : List Char) :
    groupFranchiseResults l q =
      ((jsSort groupLe (buildGroups (jsLower q) l).1).map
        (fun g => jsSort yearLe g.2)).flatten ++
        (buildGroups (jsLower q) l).2 := rfl

/-- C4: for the query "cars" over exactly the four raw items named
"Cars", "Cars 2", "Cars 3" and "Race Cars Weekly" — each with a known
(nonzero) year, and any ratings, content types and current year — the
ranked output consists of the three items whose names start with "cars"
as one contiguous group at the front, sorted ascending by year, followed
by "Race Cars Weekly". -/
theorem c4_cars_franchise_grouping (cy y1 y2 y3 y4 : Nat) (q1 q2 q3 q4 : ℚ)
    (t1 t2 t3 t4 : List Char)
    (h1 : 0 < y1) (h2 : 0 < y2) (h3 : 0 < y3) (h4 : 0 < y4) :
    (((processSearchResults cy
          [⟨str "Cars", y1, q1, t1⟩, ⟨str "Cars 2", y2, q2, t2⟩,
           ⟨str "Cars 3", y3, q3, t3⟩, ⟨str "Race Cars Weekly", y4, q4, t4⟩]
          (str "cars")).map (fun r => r.item)).take 3).Perm
        [⟨str "Cars", y1, q1, t1⟩, ⟨str "Cars 2", y2, q2, t2⟩,
         ⟨str "Cars 3", y3, q3, t3⟩] ∧
      ((processSearchResults cy
          [⟨str "Cars", y1, q1, t1⟩, ⟨str "Cars 2", y2, q2, t2⟩,
           ⟨str "Cars 3", y3, q3, t3⟩, ⟨str "Race Cars Weekly", y4, q4, t4⟩]
          (str "cars")).take 3).Pairwise
        (fun a b => a.item.year ≤ b.item.year) ∧
      ((processSearchResults cy
          [⟨str "Cars", y1, q1, t1⟩, ⟨str "Cars 2", y2, q2, t2⟩,
           ⟨str "Cars 3", y3, q3, t3⟩, ⟨str "Race Cars Weekly", y4, q4, t4⟩]
          (str "cars")).map (fun r => r.item)).drop 3 =
        [⟨str "Race Cars Weekly", y4, q4, t4⟩] := by
  set i1 : CatalogItem := ⟨str "Cars", y1, q1, t1⟩ with hi1
  set i2 : CatalogItem := ⟨str "Cars 2", y2, q2, t2⟩ with hi2
  set i3 : CatalogItem := ⟨str "Cars 3", y3, q3, t3⟩ with hi3
  set i4 : CatalogItem := ⟨str "Race Cars Weekly", y4, q4, t4⟩ with hi4
  have hf : filteredResults cy [i1, i2, i3, i4] (str "cars") =
      [⟨i1, 100, getSecondaryScore cy i1, 0⟩, ⟨i2, 90, getSecondaryScore cy i2, 1⟩,
       ⟨i3, 90, getSecondaryScore cy i3, 2⟩, ⟨i4, 80, getSecondaryScore cy i4, 3⟩] := by
    rw [hi1, hi2, hi3, hi4]
    rfl
  have hproc : processSearchResults cy [i1, i2, i3, i4] (str "cars") =
      groupFranchiseResults (rankedPhase cy [i1, i2, i3, i4] (str "cars"))
        (str "cars") := by
    unfold processSearchResults
    rw [if_neg (by simp)]
  set l := rankedPhase cy [i1, i2, i3, i4] (str "cars") with hldef
  have hlperm : l.Perm (filteredResults cy [i1, i2, i3, i4] (str "cars")) :=
    jsSort_perm resultLe _
  have hmem4 : ∀ r ∈ l,
      r = ⟨i1, 100, getSecondaryScore cy i1, 0⟩ ∨
      r = ⟨i2, 90, getSecondaryScore cy i2, 1⟩ ∨
      r = ⟨i3, 90, getSecondaryScore cy i3, 2⟩ ∨
      r = ⟨i4, 80, getSecondaryScore cy i4, 3⟩ := by
    intro r hr
    have := hlperm.mem_iff.mp hr
    rw [hf] at this
    simpa using this
  have hkey1 : franchiseKey (jsLower (str "cars"))
      (⟨i1, 100, getSecondaryScore cy i1, 0⟩ : SearchResult) = some (str "cars") := by
    rw [hi1]; rfl
  have hkey2 : franchiseKey (jsLower (str "cars"))
      (⟨i2, 90, getSecondaryScore cy i2, 1⟩ : SearchResult) = some (str "cars") := by
    rw [hi2]; rfl
  have hkey3 : franchiseKey (jsLower (str "cars"))
      (⟨i3, 90, getSecondaryScore cy i3, 2⟩ : SearchResult) = some (str "cars") := by
    rw [hi3]; rfl
  have hkey4 : franchiseKey (jsLower (str "cars"))
      (⟨i4, 80, getSecondaryScore cy i4, 3⟩ : SearchResult) = none := by
    rw [hi4]; rfl
  have hcls : ∀ r ∈ l, franchiseKey (jsLower (str "cars")) r = some (str "cars") ∨
      franchiseKey (jsLower (str "cars")) r = none := by
    intro r hr
    rcases hmem4 r hr with rfl | rfl | rfl | rfl
    · exact Or.inl hkey1
    · exact Or.inl hkey2
    · exact Or.inl hkey3
    · exact Or.inr hkey4
  have hbg := groupFold_from_nil (jsLower (str "cars")) (str "cars") l [] hcls
  set keyed := l.filter
    (fun r => (franchiseKey (jsLower (str "cars")) r).isSome) with hkeyeddef
  set stand := l.filter
    (fun r => (franchiseKey (jsLower (str "cars")) r).isNone) with hstanddef
  have hkeyed_perm : keyed.Perm
      [⟨i1, 100, getSecondaryScore cy i1, 0⟩, ⟨i2, 90, getSecondaryScore cy i2, 1⟩,
       ⟨i3, 90, getSecondaryScore cy i3, 2⟩] := by
    have hp := hlperm.filter
      (fun r => (franchiseKey (jsLower (str "cars")) r).isSome)
    rw [hf] at hp
    refine hp.trans (List.Perm.of_eq ?_)
    simp [List.filter_cons, hkey1, hkey2, hkey3, hkey4]
  have hstand_eq : stand = [⟨i4, 80, getSecondaryScore cy i4, 3⟩] := by
    have hp := hlperm.filter
      (fun r => (franchiseKey (jsLower (str "cars")) r).isNone)
    rw [hf] at hp
    refine List.perm_singleton.mp (hp.trans (List.Perm.of_eq ?_))
    simp [List.filter_cons, hkey1, hkey2, hkey3, hkey4]
  have hkeyed_ne : keyed ≠ [] := by
    intro h
    rw [h] at hkeyed_perm
    exact absurd hkeyed_perm.symm (by simp)
  have hout : processSearchResults cy [i1, i2, i3, i4] (str "cars") =
      jsSort yearLe keyed ++ stand := by
    rw [hproc, groupFranchiseResults_eq]
    have hbg2 : buildGroups (jsLower (str "cars")) l =
        ([(str "cars", keyed)], stand) := by
      unfold buildGroups
      rw [hbg]
      simp [hkeyed_ne]
    rw [hbg2,
      show jsSort groupLe [(str "cars", keyed)] = [(str "cars", keyed)] from rfl]
    simp only [List.map_cons, List.map_nil, List.flatten_cons, List.flatten_nil,
      List.append_nil]
  have hlen3 : (jsSort yearLe keyed).length = 3 := by
    rw [(jsSort_perm yearLe keyed).length_eq, hkeyed_perm.length_eq]
    rfl
  have htake : (processSearchResults cy [i1, i2, i3, i4] (str "cars")).take 3 =
      jsSort yearLe keyed := by
    rw [hout, List.take_left' hlen3]
  have hdrop : (processSearchResults cy [i1, i2, i3, i4] (str "cars")).drop 3 =
      stand := by
    rw [hout, List.drop_left' hlen3]
  refine ⟨?_, ?_, ?_⟩
  · rw [← List.map_take, htake]
    have hpm : (jsSort yearLe keyed).Perm
        [⟨i1, 100, getSecondaryScore cy i1, 0⟩, ⟨i2, 90, getSecondaryScore cy i2, 1⟩,
         ⟨i3, 90, getSecondaryScore cy i3, 2⟩] :=
      (jsSort_perm yearLe keyed).trans hkeyed_perm
    simpa using hpm.map (fun r => r.item)
  · rw [htake]
    have hpw := pairwise_jsSort yearLe yearLe_trans yearLe_total keyed
    refine hpw.imp_of_mem ?_
    intro a b ha hb hab
    have ha' : a ∈ l := List.mem_of_mem_filter (hkeyeddef ▸ mem_jsSort.mp ha)
    have hb' : b ∈ l := List.mem_of_mem_filter (hkeyeddef ▸ mem_jsSort.mp hb)
    have hay : 0 < a.item.year := by
      rcases hmem4 a ha' with rfl | rfl | rfl | rfl <;>
        simp [hi1, hi2, hi3, hi4] <;> omega
    have hby : 0 < b.item.year := by
      rcases hmem4 b hb' with rfl | rfl | rfl | rfl <;>
        simp [hi1, hi2, hi3, hi4] <;> omega
    simp only [yearLe, yearKey, decide_eq_true_eq] at hab
    rw [if_neg (by omega), if_neg (by omega)] at hab
    exact hab
  · rw [← List.map_drop, hdrop, hstand_eq]
    rfl

/-- Witness for C4: the universal grouping theorem applied at the films'
actual years (2006, 2011, 2017; weekly 2019), rating 0, type "movie",
current year 2026. -/
theorem c4_cars_franchise_grouping_witness :
    (((processSearchResults 2026
          [⟨str "Cars", 2006, 0, str "movie"⟩, ⟨str "Cars 2", 2011, 0, str "movie"⟩,
           ⟨str "Cars 3", 2017, 0, str "movie"⟩,
           ⟨str "Race Cars Weekly", 2019, 0, str "movie"⟩]
          (str "cars")).map (fun r => r.item)).take 3).Perm
        [⟨str "Cars", 2006, 0, str "movie"⟩, ⟨str "Cars 2", 2011, 0, str "movie"⟩,
         ⟨str "Cars 3", 2017, 0, str "movie"⟩] ∧
      ((processSearchResults 2026
          [⟨str "Cars", 2006, 0, str "movie"⟩, ⟨str "Cars 2", 2011, 0, str "movie"⟩,
           ⟨str "Cars 3", 2017, 0, str "movie"⟩,
           ⟨str "Race Cars Weekly", 2019, 0, str "movie"⟩]
          (str "cars")).take 3).Pairwise
        (fun a b => a.item.year ≤ b.item.year) ∧
      ((processSearchResults 2026
          [⟨str "Cars", 2006, 0, str "movie"⟩, ⟨str "Cars 2", 2011, 0, str "movie"⟩,
           ⟨str "Cars 3", 2017, 0, str "movie"⟩,
           ⟨str "Race Cars Weekly", 2019, 0, str "movie"⟩]
          (str "cars")).map (fun r => r.item)).drop 3 =
        [⟨str "Race Cars Weekly", 2019, 0, str "movie"⟩] :=
  c4_cars_franchise_grouping 2026 2006 2011 2017 2019 0 0 0 0
    (str "movie") (str "movie") (str "movie") (str "movie")
    (by decide) (by decide) (by decide) (by decide)

end Deckflix
